import Mathlib

/-!
Verification of the fetch_quote core: the trading-signal and metrics engine
(src/utils/analysis.ts), the technical indicators (src/indicators/rsi.ts,
src/indicators/sma.ts, src/indicators/macd.ts), the backoff fetcher
(src/utils/http.ts), the provider registry (src/providers/registry.ts) and the
quote normalization of the two provider adapters (src/providers/alpha_vantage.ts,
src/providers/finnhub.ts), shallowly embedded in Lean.

JavaScript numbers are modelled as exact rationals; values that may be `NaN` or
`±Infinity` use the four-constructor type `JNum`.  `Math.round` is modelled as
`⌊q + 1/2⌋` (round half toward positive infinity), matching JavaScript.
-/

namespace FQ

/-- `DEFAULTS.TRADING_DAYS_WINDOW` from src/core/constants.ts. -/
def TRADING_DAYS_WINDOW : Nat := 270

/-- `DEFAULTS.VOLUME_AVG_DAYS` from src/core/constants.ts. -/
def VOLUME_AVG_DAYS : Nat := 30

/-- `DEFAULTS.RSI_OVERBOUGHT` from src/core/constants.ts. -/
def RSI_OVERBOUGHT : ℚ := 70

/-- `DEFAULTS.RSI_OVERSOLD` from src/core/constants.ts. -/
def RSI_OVERSOLD : ℚ := 30

/-- JavaScript `Math.round`: nearest integer, half rounded toward `+∞`. -/
def jsRound (q : ℚ) : ℚ := ⌊q + 1/2⌋

/-- The pervasive `Math.round(x * 100) / 100` two-decimal rounding. -/
def round2 (q : ℚ) : ℚ := jsRound (q * 100) / 100

/-- A JavaScript number: an exact finite rational, `NaN`, `+Infinity` or
`-Infinity`.  Finite-value arithmetic is exact (rational) in this model. -/
inductive JNum where
  | fin (q : ℚ)
  | nan
  | inf
  | ninf
deriving DecidableEq, Repr

/-- `Number.isFinite`. -/
def JNum.isFinite : JNum → Bool
  | .fin _ => true
  | _ => false

/-- Multiplication of a JavaScript number by a finite value
(`bar.high * multiplier`; the multiplier is finite by construction). -/
def JNum.mulQ : JNum → ℚ → JNum
  | .fin a, q => .fin (a * q)
  | .nan, _ => .nan
  | .inf, q => if 0 < q then .inf else if q < 0 then .ninf else .nan
  | .ninf, q => if 0 < q then .ninf else if q < 0 then .inf else .nan

/-- JavaScript `Math.max` on two numbers (`NaN` propagates). -/
def JNum.jmax : JNum → JNum → JNum
  | .nan, _ => .nan
  | _, .nan => .nan
  | .inf, _ => .inf
  | _, .inf => .inf
  | .ninf, b => b
  | a, .ninf => a
  | .fin a, .fin b => .fin (max a b)

/-! ## Metrics and signal engine (src/utils/analysis.ts) -/

/-- The fields of a `DailyBar` used by `computeMetrics`.  Provider data may be
missing or malformed, so every field may be non-finite. -/
structure MetricBar where
  high : JNum
  close : JNum
  adjustedClose : JNum
  volume : JNum
deriving DecidableEq, Repr

/-- Result of `computeMetrics`; both fields are `NaN` sentinels when no valid
input existed. -/
structure Metrics where
  high52Week : JNum
  avgVolume30Day : JNum
deriving DecidableEq, Repr

/-- The split-adjustment multiplier:
`Number.isFinite(adjustedClose) && Number.isFinite(close) && close !== 0
  ? adjustedClose / close : 1`. -/
def splitMultiplier (b : MetricBar) : ℚ :=
  match b.adjustedClose, b.close with
  | .fin a, .fin c => if c = 0 then 1 else a / c
  | _, _ => 1

/-- The single `for` loop of `computeMetrics`, carrying the loop index `i`, the
running `high52Week` (started at `-Infinity`), `volSum30` and `volCount`. -/
def metricsLoop : List MetricBar → Nat → JNum → ℚ → Nat → JNum × ℚ × Nat
  | [], _, high, volSum, volCount => (high, volSum, volCount)
  | bar :: rest, i, high, volSum, volCount =>
    let adjHigh := bar.high.mulQ (splitMultiplier bar)
    let high' := if adjHigh.isFinite then high.jmax adjHigh else high
    if i < VOLUME_AVG_DAYS then
      match bar.volume with
      | .fin v => metricsLoop rest (i + 1) high' (volSum + v) (volCount + 1)
      | _ => metricsLoop rest (i + 1) high' volSum volCount
    else metricsLoop rest (i + 1) high' volSum volCount

/-- `computeMetrics(bars)` from src/utils/analysis.ts: split-adjusted 52-week
high over the first 270 bars and mean volume over the first 30 bars. -/
def computeMetrics (bars : List MetricBar) : Metrics :=
  let st := metricsLoop (bars.take TRADING_DAYS_WINDOW) 0 .ninf 0 0
  { high52Week := if st.1.isFinite then st.1 else .nan
    avgVolume30Day := if 0 < st.2.2 then .fin (st.2.1 / (st.2.2 : ℚ)) else .nan }

/-- A trading signal; the source's `null` case is `Option.none` at use sites. -/
inductive Signal where
  | BUY
  | SELL
  | HOLD
deriving DecidableEq, Repr

/-- Trading zone boundaries. -/
structure TradingZones where
  buyZoneLow : ℚ
  buyZoneHigh : ℚ
  sellThreshold : ℚ
deriving DecidableEq, Repr

/-- `calculateZones(high52Week, buyPct, sellPct)` from src/utils/analysis.ts. -/
def calculateZones (high52Week buyPct sellPct : ℚ) : TradingZones :=
  { buyZoneLow := high52Week * (1 - buyPct / 100)
    buyZoneHigh := high52Week
    sellThreshold := high52Week * (1 - sellPct / 100) }

/-- `determineSignal(price, high52Week, buyPct, sellPct)` from
src/utils/analysis.ts.  Returns `none` when `price` or `high52Week` is
non-finite or `high52Week ≤ 0`; otherwise SELL, then BUY, then HOLD, checked in
that order. -/
def determineSignal (price high52Week : JNum) (buyPct sellPct : ℚ) : Option Signal :=
  match price, high52Week with
  | .fin p, .fin h =>
    if h ≤ 0 then none
    else
      let zones := calculateZones h buyPct sellPct
      if p ≤ zones.sellThreshold then some .SELL
      else if zones.buyZoneLow ≤ p ∧ p ≤ zones.buyZoneHigh then some .BUY
      else some .HOLD
  | _, _ => none

/-! ## RSI (src/indicators/rsi.ts)

The indicator functions only read `bar.close`, so bars are embedded as their
chronological list of closing prices. -/

/-- Day-over-day closing-price deltas: `bars[i].close - bars[i-1].close`. -/
def priceChanges (closes : List ℚ) : List ℚ :=
  List.zipWith (fun prev next => next - prev) closes closes.tail

/-- Gain component of a delta in the Wilder smoothing loop. -/
def gainOf (c : ℚ) : ℚ := if 0 < c then c else 0

/-- Loss component of a delta in the Wilder smoothing loop. -/
def lossOf (c : ℚ) : ℚ := if c < 0 then |c| else 0

/-- Seed average gain/loss: simple means of gains and losses over the first
`period` deltas (a delta of zero counts `Math.abs(0) = 0` toward losses). -/
def seedAvgs (changes : List ℚ) (period : Nat) : ℚ × ℚ :=
  let s := (changes.take period).foldl
    (fun acc c => if 0 < c then (acc.1 + c, acc.2) else (acc.1, acc.2 + |c|)) (0, 0)
  (s.1 / (period : ℚ), s.2 / (period : ℚ))

/-- One Wilder smoothing step: `avg = (avg * (period - 1) + current) / period`,
applied separately to the gain and loss averages. -/
def wilderStep (period : Nat) (avgs : ℚ × ℚ) (c : ℚ) : ℚ × ℚ :=
  ((avgs.1 * ((period : ℚ) - 1) + gainOf c) / (period : ℚ),
   (avgs.2 * ((period : ℚ) - 1) + lossOf c) / (period : ℚ))

/-- The smoothed average gain/loss after consuming every delta. -/
def finalAvgs (closes : List ℚ) (period : Nat) : ℚ × ℚ :=
  let changes := priceChanges closes
  (changes.drop period).foldl (wilderStep period) (seedAvgs changes period)

/-- Qualitative RSI interpretation. -/
inductive Interp where
  | oversold
  | overbought
  | neutral
deriving DecidableEq, Repr

/-- Result of `calculateRSI`. -/
structure RSIResult where
  value : ℚ
  period : Nat
  interpretation : Interp
deriving DecidableEq, Repr

/-- `calculateRSI(bars, period)` from src/indicators/rsi.ts.  When the final
smoothed average loss is exactly zero the division is skipped and the RSI is
100; the interpretation is decided on the unrounded RSI. -/
def calculateRSI (closes : List ℚ) (period : Nat) : Option RSIResult :=
  if closes.length < period + 1 then none
  else
    let avgs := finalAvgs closes period
    let rsi : ℚ := if avgs.2 = 0 then 100 else 100 - 100 / (1 + avgs.1 / avgs.2)
    let interpretation : Interp :=
      if rsi ≤ RSI_OVERSOLD then .oversold
      else if RSI_OVERBOUGHT ≤ rsi then .overbought
      else .neutral
    some { value := round2 rsi, period := period, interpretation := interpretation }

/-- The per-state RSI of `calculateRSIHistory`: this variant substitutes
`RS = 100` when the average loss is zero (it does not skip the division). -/
def rsiOfAvgs (avgs : ℚ × ℚ) : ℚ :=
  let rs : ℚ := if avgs.2 = 0 then 100 else avgs.1 / avgs.2
  100 - 100 / (1 + rs)

/-- `calculateRSIHistory(bars, period)` from src/indicators/rsi.ts: the rounded
RSI at the seed state and after each subsequent delta. -/
def calculateRSIHistory (closes : List ℚ) (period : Nat) : List ℚ :=
  if closes.length < period + 1 then []
  else
    let changes := priceChanges closes
    let states := (changes.drop period).scanl (wilderStep period) (seedAvgs changes period)
    (states.map rsiOfAvgs).map round2

/-! ## SMA (src/indicators/sma.ts) -/

/-- Position of the last close relative to the SMA; the source's strings
"above" / "below" / "at". -/
inductive PriceRelation where
  | above
  | below
  | atValue
deriving DecidableEq, Repr

/-- Result of `calculateSMA`. -/
structure SMAResult where
  value : ℚ
  period : Nat
  priceRelation : PriceRelation
deriving DecidableEq, Repr

/-- `calculateSMA(bars, period)` from src/indicators/sma.ts.  For `period ≥ 1`,
`bars.slice(-period)` is the final `period` bars, i.e. `drop (length - period)`.
The price relation is decided against the unrounded mean; the reported value is
rounded to two decimals. -/
def calculateSMA (closes : List ℚ) (period : Nat) : Option SMAResult :=
  if closes.length < period then none
  else
    let recentCloses := closes.drop (closes.length - period)
    let value := recentCloses.sum / (period : ℚ)
    let currentPrice := (closes.getLast?).getD 0
    let priceRelation : PriceRelation :=
      if value < currentPrice then .above
      else if currentPrice < value then .below
      else .atValue
    some { value := round2 value, period := period, priceRelation := priceRelation }

/-! ## MACD (src/indicators/macd.ts) -/

/-- `calculateEMA(values, period)`: seed with the simple mean of the first
`period` values, then `ema[i] = (value[i] - ema[i-1]) * (2/(period+1)) + ema[i-1]`. -/
def calculateEMA (values : List ℚ) (period : Nat) : List ℚ :=
  if values.length < period then []
  else
    let seed := (values.take period).sum / (period : ℚ)
    (values.drop period).scanl
      (fun prev v => (v - prev) * (2 / ((period : ℚ) + 1)) + prev) seed

/-- MACD trend classification. -/
inductive Trend where
  | bullish
  | bearish
  | neutral
deriving DecidableEq, Repr

/-- Result of `calculateMACD`; all numeric fields already rounded. -/
structure MACDResult where
  macdLine : ℚ
  signalLine : ℚ
  histogram : ℚ
  trend : Trend
deriving DecidableEq, Repr

/-- `calculateMACD(bars, fast, slow, signal)` from src/indicators/macd.ts.
The MACD line is the index loop `alignedFastEMA[i] - slowEMA[i]` over
`slowEMA.length` entries; with `fast ≤ slow` the two arrays have equal length,
so it is embedded as `zipWith`.  The histogram is recomputed from the two
already-rounded line values. -/
def calculateMACD (closes : List ℚ) (fastPeriod slowPeriod signalPeriod : Nat) :
    Option MACDResult :=
  if closes.length < slowPeriod + signalPeriod - 1 then none
  else
    let fastEMA := calculateEMA closes fastPeriod
    let slowEMA := calculateEMA closes slowPeriod
    let alignedFastEMA := fastEMA.drop (slowPeriod - fastPeriod)
    let macdLine := List.zipWith (fun a b => a - b) alignedFastEMA slowEMA
    let signalLine := calculateEMA macdLine signalPeriod
    if signalLine.length = 0 then none
    else
      let currentMACD := (macdLine.getLast?).getD 0
      let currentSignal := (signalLine.getLast?).getD 0
      let currentHistogram := currentMACD - currentSignal
      let prevHistogram : ℚ :=
        if 1 < macdLine.length ∧ 1 < signalLine.length then
          macdLine.getD (macdLine.length - 2) 0 - signalLine.getD (signalLine.length - 2) 0
        else 0
      let trend : Trend :=
        if prevHistogram ≤ 0 ∧ 0 < currentHistogram then .bullish
        else if 0 ≤ prevHistogram ∧ currentHistogram < 0 then .bearish
        else .neutral
      let roundedMACD := round2 currentMACD
      let roundedSignal := round2 currentSignal
      some { macdLine := roundedMACD, signalLine := roundedSignal,
             histogram := round2 (roundedMACD - roundedSignal), trend := trend }

/-! ## Backoff fetcher (src/utils/http.ts)

`fetchJsonWithBackoff` is embedded over an abstract transport
`t : ℕ → FetchOutcome α` giving, for each attempt index, either a rejected
`fetch` promise or an HTTP response.  A response carries its status, its body
text, and the result of `JSON.parse` on that text: `none` when parsing throws,
otherwise the parsed value together with the precomputed `isAVSoftLimit` flag
(`isAVSoftLimit` is a pure predicate on the parsed body; empty text parses to
the empty object, which is not a soft limit).  Delays, jitter and the
`onRetry` callback do not affect control flow and are not modelled. -/

/-- The errors the fetcher can raise: a rejected `fetch` (identified by an
opaque tag), the `HTTP ${status}: ${text}` error thrown for a non-ok response,
or the generic `fetchJsonWithBackoff: failed after retries` error. -/
inductive FetchErr where
  | net (tag : Nat)
  | httpErr (status : Nat) (text : String)
  | exhausted
deriving DecidableEq, Repr

/-- One attempt's transport-level outcome. -/
inductive FetchOutcome (α : Type) where
  | reject (e : FetchErr)
  | resp (status : Nat) (text : String) (parsed : Option (Bool × α))
deriving DecidableEq, Repr

/-- What a successful call returns: parsed JSON, or the raw text of a non-JSON
2xx response. -/
inductive FetchData (α : Type) where
  | json (a : α)
  | raw (text : String)
deriving DecidableEq, Repr

/-- `res.status === 429 || (res.status >= 500 && res.status <= 599)`. -/
def retryableStatus (s : Nat) : Bool := s == 429 || (500 ≤ s && s ≤ 599)

/-- JavaScript `Response.ok`: status in the range 200–299. -/
def resOk (s : Nat) : Bool := 200 ≤ s && s ≤ 299

/-- The retry loop of `fetchJsonWithBackoff`, structurally recursive on the
number of remaining attempts, carrying `lastErr`.  Retryable statuses and soft
limits `continue` without touching `lastErr`; the two `throw`s inside the
`try` are caught by the attempt's own `catch`, which records the error and
continues.  After the last attempt, `lastErr` (or the generic error) is
raised. -/
def fetchAttempts (t : Nat → FetchOutcome α) :
    Nat → Nat → Option FetchErr → Except FetchErr (FetchData α)
  | _, 0, lastErr => .error (lastErr.getD .exhausted)
  | attempt, remaining + 1, lastErr =>
    match t attempt with
    | .reject e => fetchAttempts t (attempt + 1) remaining (some e)
    | .resp status text parsed =>
      if retryableStatus status then fetchAttempts t (attempt + 1) remaining lastErr
      else
        match parsed with
        | none =>
          if resOk status then .ok (.raw text)
          else fetchAttempts t (attempt + 1) remaining (some (.httpErr status text))
        | some (soft, data) =>
          if soft then fetchAttempts t (attempt + 1) remaining lastErr
          else if resOk status then .ok (.json data)
          else fetchAttempts t (attempt + 1) remaining (some (.httpErr status text))

/-- `fetchJsonWithBackoff(url, {maxRetries}, onRetry)`: attempts
`0, 1, …, maxRetries` (the loop condition is `attempt <= maxRetries`). -/
def fetchJsonWithBackoff (t : Nat → FetchOutcome α) (maxRetries : Nat) :
    Except FetchErr (FetchData α) :=
  fetchAttempts t 0 (maxRetries + 1) none

/-- The error thrown by one attempt, if any: only a rejected `fetch` carries
one here (429/5xx statuses and soft-limit bodies `continue` without an error). -/
def attemptErr : FetchOutcome α → Option FetchErr
  | .reject e => some e
  | .resp _ _ _ => none

/-- The most recent thrown error among attempts `start, …, start + len - 1`. -/
def lastRejectIn (t : Nat → FetchOutcome α) (start : Nat) : Nat → Option FetchErr
  | 0 => none
  | len + 1 => (lastRejectIn t (start + 1) len).orElse (fun _ => attemptErr (t start))

/-- An attempt failing in one of the ways the claim enumerates: a network
error, an HTTP 429 or 5xx status, or a soft rate-limit body. -/
def attemptFails : FetchOutcome α → Prop
  | .reject _ => True
  | .resp status _ parsed =>
    retryableStatus status = true ∨ ∃ a, parsed = some (true, a)

/-! ## Provider registry (src/providers/registry.ts)

Only the pieces the news claims need are embedded: `isAvailable()` is a pure
credential check (no provider implementation can throw there), and the
optional `fetchNews` / `fetchTopNews` capabilities are modelled as `Option`al
functions returning `Except` (a thrown upstream error is `.error`).  The
registry's `Map` keys providers by `id`, so `order.includes(provider)` (object
identity over distinct map values) is membership by `id`. -/

/-- A registered data provider, restricted to the operations the news claims
exercise. -/
structure Provider (ν : Type) where
  id : String
  isAvailable : Bool
  fetchNewsFn : Option (String → Option Nat → Except String (List ν))
  fetchTopNewsFn : Option (Option Nat → Except String (List ν))

/-- The registry state: providers in `Map` insertion order plus the optional
default/fallback ids (guaranteed registered by `setDefault` / `setFallback`). -/
structure ProviderRegistry (ν : Type) where
  providers : List (Provider ν)
  defaultProviderId : Option String
  fallbackProviderId : Option String

/-- `this.providers.get(id)` as a lookup in insertion order. -/
def ProviderRegistry.getById (reg : ProviderRegistry ν) (id : String) :
    Option (Provider ν) :=
  reg.providers.find? (fun p => p.id == id)

/-- `getProviderOrder(preferredId)`: preferred (if registered), then default
(if distinct), then fallback (if distinct from both), then the remaining
providers in registration order, deduplicated. -/
def ProviderRegistry.getProviderOrder (reg : ProviderRegistry ν)
    (preferredId : Option String) : List (Provider ν) :=
  let fromPreferred :=
    match preferredId with
    | some pid => (reg.getById pid).toList
    | none => []
  let withDefault :=
    fromPreferred ++
      (match reg.defaultProviderId with
       | some did => if preferredId ≠ some did then (reg.getById did).toList else []
       | none => [])
  let withFallback :=
    withDefault ++
      (match reg.fallbackProviderId with
       | some fid =>
         if preferredId ≠ some fid ∧ reg.defaultProviderId ≠ some fid then
           (reg.getById fid).toList
         else []
       | none => [])
  reg.providers.foldl
    (fun order p => if order.any (fun q => q.id == p.id) then order else order ++ [p])
    withFallback

/-- The `for` loop shared by `fetchNews`: skip unavailable providers, return
the first successful result, swallow failures, and fall through to `[]`. -/
def newsLoop (symbol : String) (limit : Option Nat) :
    List (Provider ν) → List ν
  | [] => []
  | p :: rest =>
    if p.isAvailable then
      match p.fetchNewsFn with
      | some f =>
        match f symbol limit with
        | .ok items => items
        | .error _ => newsLoop symbol limit rest
      | none => newsLoop symbol limit rest
    else newsLoop symbol limit rest

/-- The `for` loop of `fetchTopNews`. -/
def topNewsLoop (limit : Option Nat) : List (Provider ν) → List ν
  | [] => []
  | p :: rest =>
    if p.isAvailable then
      match p.fetchTopNewsFn with
      | some f =>
        match f limit with
        | .ok items => items
        | .error _ => topNewsLoop limit rest
      | none => topNewsLoop limit rest
    else topNewsLoop limit rest

/-- `ProviderRegistry.fetchNews(symbol, limit, preferredId)`: candidates with a
`fetchNews` capability are tried in order; total failure degrades to `[]` and
is never raised (the embedding is total by construction). -/
def ProviderRegistry.fetchNews (reg : ProviderRegistry ν) (symbol : String)
    (limit : Option Nat) (preferredId : Option String) : List ν :=
  newsLoop symbol limit
    ((reg.getProviderOrder preferredId).filter (fun p => p.fetchNewsFn.isSome))

/-- `ProviderRegistry.fetchTopNews(limit, preferredId)`. -/
def ProviderRegistry.fetchTopNews (reg : ProviderRegistry ν)
    (limit : Option Nat) (preferredId : Option String) : List ν :=
  topNewsLoop limit
    ((reg.getProviderOrder preferredId).filter (fun p => p.fetchTopNewsFn.isSome))

/-! ## Quote normalization (src/providers/alpha_vantage.ts, finnhub.ts)

Upstream fields pass through JavaScript `Number(...)` coercion; a field is
modelled as `Option ℚ` where `none` stands for an absent/empty/unparsable
field (whose coercion is falsy `NaN`).  The `Date` valued `timestamp` field is
out of numeric scope and omitted. -/

/-- The normalized quote record (src/core/types.ts), numeric fields exact. -/
structure Quote where
  symbol : String
  price : ℚ
  change : ℚ
  changePercent : ℚ
  volume : ℚ
  previousClose : ℚ
  latestTradingDay : String
  source : String
deriving DecidableEq, Repr

/-- The `Global Quote` payload of Alpha Vantage, after `Number` coercion. -/
structure AVGlobalQuote where
  symbolField : Option String
  priceField : Option ℚ
  changeField : Option ℚ
  previousCloseField : Option ℚ
  volumeField : Option ℚ
  latestTradingDayField : Option String
deriving DecidableEq, Repr

/-- `AlphaVantageProvider.fetchQuote` normalization, as a function of the
parsed response (`none` when the `Global Quote` object is missing).
`Number(x) || 0` maps an absent field to 0 (`.getD 0`); `previousClose` falls
back to `price - change` when the upstream field is absent or zero (falsy);
`changePercent` is `change / previousClose` guarded against a zero divisor. -/
def avFetchQuote (symbol : String) (resp : Option AVGlobalQuote) :
    Except String Quote :=
  match resp with
  | none => .error ("No quote data for " ++ symbol)
  | some q =>
    match q.priceField with
    | none => .error ("No quote data for " ++ symbol)
    | some price =>
      let change := q.changeField.getD 0
      let previousClose :=
        match q.previousCloseField with
        | some v => if v = 0 then price - change else v
        | none => price - change
      let changePercent := if previousClose ≠ 0 then change / previousClose else 0
      .ok { symbol := q.symbolField.getD symbol
            price := price
            change := change
            changePercent := changePercent
            volume := q.volumeField.getD 0
            previousClose := previousClose
            latestTradingDay := q.latestTradingDayField.getD ""
            source := "alpha_vantage" }

/-- The Finnhub `/quote` payload: current price `c`, change `d`, percent
change `dp`, previous close `pc`, timestamp `t`. -/
structure FinnhubQuote where
  c : ℚ
  d : ℚ
  dp : ℚ
  pc : ℚ
  t : ℤ
deriving DecidableEq, Repr

/-- `FinnhubProvider.fetchQuote` normalization: fails when the payload is
missing or `c === 0`; `changePercent` is taken from the upstream `dp` field
divided by 100, not recomputed from `d` and `pc`. -/
def finnhubFetchQuote (symbol : String) (resp : Option FinnhubQuote) :
    Except String Quote :=
  match resp with
  | none => .error ("No quote data for " ++ symbol)
  | some data =>
    if data.c = 0 then .error ("No quote data for " ++ symbol)
    else
      .ok { symbol := symbol
            price := data.c
            change := data.d
            changePercent := data.dp / 100
            volume := 0
            previousClose := data.pc
            latestTradingDay := ""
            source := "finnhub" }

/-- The spec's Quote invariant: `changePercent == change / previousClose`
whenever `previousClose ≠ 0`. -/
def quoteInvariant (q : Quote) : Prop :=
  q.previousClose ≠ 0 → q.changePercent = q.change / q.previousClose

/-! ## Spec-side characterizations

These definitions follow the words of the specification (not the source) and
are proved equal to, or related with, the embedded source functions above. -/

/-- The finite rationals of a list of JavaScript numbers, in order. -/
def finiteVals (l : List JNum) : List ℚ :=
  l.filterMap (fun j => match j with | .fin q => some q | _ => none)

/-- Spec wording: the split-adjusted highs of the first 270 bars. -/
def specAdjHighs (bars : List MetricBar) : List JNum :=
  (bars.take TRADING_DAYS_WINDOW).map (fun b => b.high.mulQ (splitMultiplier b))

/-- Spec wording: `high52Week` is the maximum of the finite split-adjusted
highs over the first 270 bars, `NaN` when there is none. -/
def specHigh52Week (bars : List MetricBar) : JNum :=
  match finiteVals (specAdjHighs bars) with
  | [] => .nan
  | q :: rest => .fin (rest.foldl max q)

/-- Spec wording: `avgVolume30Day` is the arithmetic mean of the finite
volumes among the first 30 bars, `NaN` when there is none. -/
def specAvgVolume30Day (bars : List MetricBar) : JNum :=
  let vols := finiteVals ((bars.take VOLUME_AVG_DAYS).map (fun b => b.volume))
  if vols.length = 0 then .nan else .fin (vols.sum / (vols.length : ℚ))

/-- Claim wording for MACD: the call succeeds and the reported histogram is
the two-decimal rounding of the difference of the two already-rounded lines. -/
def macdHistogramOk : Option MACDResult → Prop
  | none => False
  | some r => r.histogram = round2 (r.macdLine - r.signalLine)

/-! ## Concrete example data -/

/-- An available provider whose news operations always raise. -/
def failingNewsProvider : Provider Nat :=
  { id := "p1", isAvailable := true,
    fetchNewsFn := some (fun _ _ => .error "down"),
    fetchTopNewsFn := some (fun _ => .error "down") }

/-- A registry whose only provider is `failingNewsProvider`. -/
def failingRegistry : ProviderRegistry Nat :=
  { providers := [failingNewsProvider],
    defaultProviderId := none, fallbackProviderId := none }

/-- A Finnhub payload whose `dp` field is inconsistent with `d / pc`. -/
def finnhubBadRaw : FinnhubQuote := { c := 10, d := 1, dp := 5, pc := 4, t := 0 }

/-- The quote the Finnhub adapter produces from `finnhubBadRaw`. -/
def finnhubBadQuote : Quote :=
  { symbol := "X", price := 10, change := 1, changePercent := 1/20,
    volume := 0, previousClose := 4, latestTradingDay := "", source := "finnhub" }

/-- An Alpha Vantage payload with the previous-close field absent. -/
def avRawNoPrev : AVGlobalQuote :=
  { symbolField := some "A", priceField := some 10, changeField := some 1,
    previousCloseField := none, volumeField := some 0, latestTradingDayField := none }

/-- The quote the Alpha Vantage adapter produces from `avRawNoPrev`:
`previousClose` derived as `10 - 1`. -/
def avDerivedQuote : Quote :=
  { symbol := "A", price := 10, change := 1, changePercent := 1/9,
    volume := 0, previousClose := 9, latestTradingDay := "", source := "alpha_vantage" }

/-! ## Helper lemmas -/

theorem scanl_getLast_eq_foldl (f : β → α → β) :
    ∀ (l : List α) (b : β), (l.scanl f b).getLast? = some (l.foldl f b) := by
  intro l
  induction l with
  | nil => intro b; simp
  | cons a l ih =>
    intro b
    rw [List.scanl_cons, List.singleton_append]
    obtain ⟨t, ht⟩ : ∃ t, List.scanl f (f b a) l = (f b a) :: t := by
      cases l with
      | nil => exact ⟨[], by simp⟩
      | cons x xs => exact ⟨_, by rw [List.scanl_cons]; rfl⟩
    rw [ht, List.getLast?_cons_cons, ← ht, ih (f b a), List.foldl_cons]

theorem map_getLast_eq (g : α → β) :
    ∀ l : List α, (l.map g).getLast? = (l.getLast?).map g := by
  intro l
  induction l with
  | nil => simp
  | cons a l ih =>
    cases l with
    | nil => simp
    | cons x xs => simpa using ih

theorem sum_of_constant {c : ℚ} :
    ∀ l : List ℚ, (∀ x ∈ l, x = c) → l.sum = (l.length : ℚ) * c := by
  intro l
  induction l with
  | nil => intro _; simp
  | cons a l ih =>
    intro h
    have ha : a = c := h a (by simp)
    have ht : ∀ x ∈ l, x = c := fun x hx => h x (by simp [hx])
    rw [List.sum_cons, ih ht, ha, List.length_cons]
    push_cast
    ring

theorem priceChanges_flat {c : ℚ} :
    ∀ closes : List ℚ, (∀ x ∈ closes, x = c) → ∀ y ∈ priceChanges closes, y = 0 := by
  intro closes
  induction closes with
  | nil => intro _ y hy; simp [priceChanges] at hy
  | cons a rest ih =>
    intro hall y hy
    cases rest with
    | nil => simp [priceChanges] at hy
    | cons b t =>
      have : priceChanges (a :: b :: t) = (b - a) :: priceChanges (b :: t) := by
        simp [priceChanges]
      rw [this] at hy
      rcases List.mem_cons.mp hy with h1 | h2
      · have ha : a = c := hall a (by simp)
        have hb : b = c := hall b (by simp)
        rw [h1, ha, hb]; ring
      · exact ih (fun x hx => hall x (by simp [List.mem_cons.mp hx])) y h2

theorem seed_fold_zero :
    ∀ l : List ℚ, (∀ x ∈ l, x = 0) →
      l.foldl (fun acc c => if 0 < c then (acc.1 + c, acc.2) else (acc.1, acc.2 + |c|))
        ((0 : ℚ), (0 : ℚ)) = (0, 0) := by
  intro l
  induction l with
  | nil => intro _; rfl
  | cons a rest ih =>
    intro h
    have ha : a = 0 := h a (by simp)
    have step : (if 0 < a then ((0 : ℚ) + a, (0 : ℚ)) else ((0 : ℚ), (0 : ℚ) + |a|)) =
        ((0 : ℚ), (0 : ℚ)) := by
      rw [ha]; norm_num
    rw [List.foldl_cons, step]
    exact ih (fun x hx => h x (by simp [hx]))

theorem wilder_fold_zero (period : Nat) :
    ∀ l : List ℚ, (∀ x ∈ l, x = 0) →
      l.foldl (wilderStep period) ((0 : ℚ), (0 : ℚ)) = (0, 0) := by
  intro l
  induction l with
  | nil => intro _; rfl
  | cons a rest ih =>
    intro h
    have ha : a = 0 := h a (by simp)
    have step : wilderStep period ((0 : ℚ), (0 : ℚ)) a = ((0 : ℚ), (0 : ℚ)) := by
      rw [ha]
      simp [wilderStep, gainOf, lossOf]
    rw [List.foldl_cons, step]
    exact ih (fun x hx => h x (by simp [hx]))

theorem finalAvgs_flat (closes : List ℚ) (c : ℚ) (period : Nat)
    (hflat : ∀ x ∈ closes, x = c) : finalAvgs closes period = (0, 0) := by
  have hch : ∀ y ∈ priceChanges closes, y = 0 := priceChanges_flat closes hflat
  have hseed : seedAvgs (priceChanges closes) period = (0, 0) := by
    unfold seedAvgs
    rw [seed_fold_zero _ (fun x hx => hch x (List.take_subset _ _ hx))]
    simp
  show (priceChanges closes |>.drop period).foldl (wilderStep period)
      (seedAvgs (priceChanges closes) period) = (0, 0)
  rw [hseed]
  exact wilder_fold_zero period _ (fun x hx => hch x (List.drop_subset _ _ hx))

theorem determineSignal_fin_pos (p h buyPct sellPct : ℚ) (hh : 0 < h) :
    determineSignal (.fin p) (.fin h) buyPct sellPct =
      some (if p ≤ h * (1 - sellPct / 100) then Signal.SELL
            else if h * (1 - buyPct / 100) ≤ p ∧ p ≤ h then Signal.BUY
            else Signal.HOLD) := by
  have hh' : ¬(h ≤ 0) := not_le.mpr hh
  simp only [determineSignal, calculateZones, hh', if_false]
  split_ifs <;> rfl

/-! ## Claim theorems -/

/-- C1: for finite inputs with positive `high52Week`, `determineSignal` yields
SELL when `price ≤ high52Week*(1 - sellPct/100)`, otherwise BUY when
`high52Week*(1 - buyPct/100) ≤ price ≤ high52Week`, otherwise HOLD — with the
SELL comparison evaluated first — and it returns null exactly when `price` or
`high52Week` is non-finite or `high52Week ≤ 0`. -/
theorem c1_determineSignal_spec (buyPct sellPct : ℚ) :
    (∀ p h : ℚ, 0 < h →
      determineSignal (.fin p) (.fin h) buyPct sellPct =
        some (if p ≤ h * (1 - sellPct / 100) then Signal.SELL
              else if h * (1 - buyPct / 100) ≤ p ∧ p ≤ h then Signal.BUY
              else Signal.HOLD)) ∧
    (∀ price high52Week : JNum,
      determineSignal price high52Week buyPct sellPct = none ↔
        (price.isFinite = false ∨ high52Week.isFinite = false ∨
          ∀ q : ℚ, high52Week = .fin q → q ≤ 0)) ∧
    (∀ p h : ℚ, 0 < h → p ≤ h * (1 - sellPct / 100) →
      h * (1 - buyPct / 100) ≤ p → p ≤ h →
      determineSignal (.fin p) (.fin h) buyPct sellPct = some Signal.SELL) := by
  refine ⟨fun p h hh => determineSignal_fin_pos p h buyPct sellPct hh, ?_, ?_⟩
  · intro price high52Week
    cases price with
    | fin p =>
      cases high52Week with
      | fin h =>
        by_cases h0 : h ≤ 0
        · constructor
          · intro _
            right; right
            intro q hq
            injection hq with hq'
            exact hq' ▸ h0
          · intro _
            simp only [determineSignal]
            rw [if_pos h0]
        · have hpos : 0 < h := not_le.mp h0
          rw [determineSignal_fin_pos p h buyPct sellPct hpos]
          constructor
          · intro hc
            exact absurd hc (by simp)
          · rintro (hc | hc | hc)
            · exact absurd hc (by simp [JNum.isFinite])
            · exact absurd hc (by simp [JNum.isFinite])
            · exact absurd (hc h rfl) h0
      | nan => simp [determineSignal, JNum.isFinite]
      | inf => simp [determineSignal, JNum.isFinite]
      | ninf => simp [determineSignal, JNum.isFinite]
    | nan => simp [determineSignal, JNum.isFinite]
    | inf => simp [determineSignal, JNum.isFinite]
    | ninf => simp [determineSignal, JNum.isFinite]
  · intro p h hh hsell _ _
    rw [determineSignal_fin_pos p h buyPct sellPct hh, if_pos hsell]

/-- Witness for C1 at the spec's boundary example: price 92 against a 52-week
high of 100 with `buyPct = sellPct = 8` (so `sellThreshold = buyZoneLow = 92`)
yields SELL. -/
theorem c1_witness :
    (0 : ℚ) < 100 ∧ determineSignal (.fin 92) (.fin 100) 8 8 = some Signal.SELL := by
  constructor
  · norm_num
  · rw [(c1_determineSignal_spec 8 8).1 92 100 (by norm_num)]
    norm_num

/-- C7: on insufficient input the indicator functions return null: `calculateRSI`
with fewer than `period+1` bars, `calculateSMA` with fewer than `period` bars,
and `calculateMACD` with fewer than `slow + signal - 1` bars. -/
theorem c7_insufficient_input_null :
    (∀ (closes : List ℚ) (period : Nat), 1 ≤ period →
      closes.length < period + 1 → calculateRSI closes period = none) ∧
    (∀ (closes : List ℚ) (period : Nat), 1 ≤ period →
      closes.length < period → calculateSMA closes period = none) ∧
    (∀ (closes : List ℚ) (fastPeriod slowPeriod signalPeriod : Nat),
      closes.length < slowPeriod + signalPeriod - 1 →
      calculateMACD closes fastPeriod slowPeriod signalPeriod = none) := by
  refine ⟨?_, ?_, ?_⟩
  · intro closes period _ h
    simp [calculateRSI, h]
  · intro closes period _ h
    simp [calculateSMA, h]
  · intro closes fastPeriod slowPeriod signalPeriod h
    simp [calculateMACD, h]

/-- Witness for C7: the empty bar list yields null for all three indicators. -/
theorem c7_witness :
    calculateRSI [] 14 = none ∧ calculateSMA [] 50 = none ∧
      calculateMACD [] 12 26 9 = none :=
  ⟨c7_insufficient_input_null.1 [] 14 (by decide) (by decide),
   c7_insufficient_input_null.2.1 [] 50 (by decide) (by decide),
   c7_insufficient_input_null.2.2 [] 12 26 9 (by decide)⟩

/-- C10: on a flat series (all closes equal) of length at least `period + 1`,
both smoothed averages are zero, the `avgLoss = 0` branch fires, and
`calculateRSI` reports value 100 with interpretation "overbought". -/
theorem c10_flat_series_rsi (closes : List ℚ) (c : ℚ) (period : Nat)
    (hp : 1 ≤ period) (hlen : period + 1 ≤ closes.length)
    (hflat : ∀ x ∈ closes, x = c) :
    calculateRSI closes period = some ⟨100, period, Interp.overbought⟩ := by
  have hg : ¬(closes.length < period + 1) := by omega
  simp only [calculateRSI, hg, if_false, finalAvgs_flat closes c period hflat]
  norm_num [RSI_OVERSOLD, RSI_OVERBOUGHT, round2, jsRound]

/-- Witness for C10: a two-bar flat series at price 5 with period 1. -/
theorem c10_witness :
    calculateRSI [5, 5] 1 = some ⟨100, 1, Interp.overbought⟩ :=
  c10_flat_series_rsi [5, 5] 5 1 (by decide) (by decide) (by norm_num)

/-- Counterexample for C2: on the flat two-bar series with period 1 the final
smoothed average loss is 0; `calculateRSI` reports 100 but the last element of
`calculateRSIHistory` is 99.01 (the history variant substitutes RS = 100
instead of skipping the division), so the two disagree. -/
theorem c2_counterexample :
    (calculateRSIHistory [1, 1] 1).getLast? = some (9901 / 100) ∧
    calculateRSI [1, 1] 1 = some ⟨100, 1, Interp.overbought⟩ ∧
    ((9901 : ℚ) / 100 ≠ 100) := by
  refine ⟨?_, ?_, by norm_num⟩
  · norm_num [calculateRSIHistory, priceChanges, seedAvgs, wilderStep, rsiOfAvgs,
      round2, jsRound, List.scanl]
  · norm_num [calculateRSI, finalAvgs, priceChanges, seedAvgs, wilderStep,
      round2, jsRound, RSI_OVERSOLD, RSI_OVERBOUGHT]

/-- C2 (amended): whenever the final smoothed average loss is nonzero, the two
functions apply the same Wilder recurrence and the last element of
`calculateRSIHistory` equals `calculateRSI(...).value`; at a zero average loss
`calculateRSI` reports 100 while the history variant reports
`100 - 100/101 ≈ 99.01`. -/
theorem c2_history_last_eq (closes : List ℚ) (period : Nat) (hp : 1 ≤ period)
    (hlen : period + 1 ≤ closes.length)
    (hloss : (finalAvgs closes period).2 ≠ 0) :
    (calculateRSIHistory closes period).getLast? =
      (calculateRSI closes period).map (fun r => r.value) := by
  have hg : ¬(closes.length < period + 1) := by omega
  simp only [calculateRSIHistory, calculateRSI, hg, if_false]
  rw [map_getLast_eq, map_getLast_eq, scanl_getLast_eq_foldl]
  have hfold : (priceChanges closes |>.drop period).foldl (wilderStep period)
      (seedAvgs (priceChanges closes) period) = finalAvgs closes period := rfl
  rw [hfold]
  simp only [Option.map_some']
  rw [if_neg hloss]
  unfold rsiOfAvgs
  rw [if_neg hloss]

/-- Witness for C2 (amended): a strictly falling two-bar series has nonzero
final average loss and the two functions agree on the last value. -/
theorem c2_witness :
    (calculateRSIHistory [2, 1] 1).getLast? =
      (calculateRSI [2, 1] 1).map (fun r => r.value) :=
  c2_history_last_eq [2, 1] 1 (by decide) (by decide)
    (by norm_num [finalAvgs, priceChanges, seedAvgs, wilderStep])

/-- Counterexample for C6: with the constant closing price 1/8, the reported
SMA value is the two-decimal rounding 0.13, not the constant itself. -/
theorem c6_counterexample :
    calculateSMA [1/8] 1 = some ⟨13/100, 1, PriceRelation.atValue⟩ ∧
    ((13 : ℚ) / 100 ≠ 1 / 8) := by
  refine ⟨?_, by norm_num⟩
  norm_num [calculateSMA, round2, jsRound]

/-- C6 (amended): for a constant-close series, `calculateSMA` reports the
constant rounded to two decimals (equal to the constant exactly when it has at
most two decimals) and `priceRelation = "at"` (the relation is decided on the
unrounded mean, which equals the constant). -/
theorem c6_flat_sma (closes : List ℚ) (c : ℚ) (period : Nat)
    (hp : 1 ≤ period) (hlen : period ≤ closes.length)
    (hflat : ∀ x ∈ closes, x = c) :
    calculateSMA closes period = some ⟨round2 c, period, PriceRelation.atValue⟩ := by
  have hg : ¬(closes.length < period) := by omega
  have hne : closes ≠ [] := by
    intro h
    rw [h] at hlen
    simp at hlen
    omega
  have hdroplen : (closes.drop (closes.length - period)).length = period := by
    rw [List.length_drop]; omega
  have hdropall : ∀ x ∈ closes.drop (closes.length - period), x = c :=
    fun x hx => hflat x (List.drop_subset _ _ hx)
  have hsum : (closes.drop (closes.length - period)).sum = (period : ℚ) * c := by
    rw [sum_of_constant _ hdropall, hdroplen]
  have hpne : ((period : ℚ)) ≠ 0 := by
    exact_mod_cast Nat.one_le_iff_ne_zero.mp hp
  have hval : (closes.drop (closes.length - period)).sum / (period : ℚ) = c := by
    rw [hsum]
    exact mul_div_cancel_left₀ c hpne
  have hlast : (closes.getLast?).getD 0 = c := by
    rw [List.getLast?_eq_getLast closes hne]
    exact hflat _ (List.getLast_mem hne)
  simp only [calculateSMA, hg, if_false, hval, hlast, lt_self_iff_false, if_false]

/-- Witness for C6 (amended): a single bar at price 1 gives SMA 1 with
relation "at" (`round2 1 = 1`). -/
theorem c6_witness :
    calculateSMA [1] 1 = some ⟨round2 1, 1, PriceRelation.atValue⟩ :=
  c6_flat_sma [1] 1 1 (by decide) (by decide) (by norm_num)

theorem calculateEMA_length (values : List ℚ) (period : Nat)
    (h : period ≤ values.length) :
    (calculateEMA values period).length = values.length - period + 1 := by
  have hg : ¬(values.length < period) := by omega
  simp only [calculateEMA, hg, if_false, List.length_scanl, List.length_drop]

/-- C5: whenever there are at least `slow + signal - 1` bars (and the periods
are sensible: `1 ≤ fast ≤ slow`, `1 ≤ signal`), `calculateMACD` succeeds and
its histogram equals `round2(round2(currentMACD) - round2(currentSignal))`,
i.e. `round2(result.macdLine - result.signalLine)` over the already-rounded
reported line values. -/
theorem c5_macd_histogram (closes : List ℚ) (fastPeriod slowPeriod signalPeriod : Nat)
    (hf : 1 ≤ fastPeriod) (hfs : fastPeriod ≤ slowPeriod) (hs : 1 ≤ signalPeriod)
    (hlen : slowPeriod + signalPeriod - 1 ≤ closes.length) :
    macdHistogramOk (calculateMACD closes fastPeriod slowPeriod signalPeriod) := by
  have hg : ¬(closes.length < slowPeriod + signalPeriod - 1) := by omega
  have hslow : slowPeriod ≤ closes.length := by omega
  have hfast : fastPeriod ≤ closes.length := by omega
  have hmacdlen : (List.zipWith (fun a b => a - b)
      ((calculateEMA closes fastPeriod).drop (slowPeriod - fastPeriod))
      (calculateEMA closes slowPeriod)).length = closes.length - slowPeriod + 1 := by
    rw [List.length_zipWith, List.length_drop,
      calculateEMA_length closes fastPeriod hfast,
      calculateEMA_length closes slowPeriod hslow]
    omega
  have hsiglen : signalPeriod ≤ (List.zipWith (fun a b => a - b)
      ((calculateEMA closes fastPeriod).drop (slowPeriod - fastPeriod))
      (calculateEMA closes slowPeriod)).length := by
    rw [hmacdlen]; omega
  have hsig : ¬((calculateEMA (List.zipWith (fun a b => a - b)
      ((calculateEMA closes fastPeriod).drop (slowPeriod - fastPeriod))
      (calculateEMA closes slowPeriod)) signalPeriod).length = 0) := by
    rw [calculateEMA_length _ _ hsiglen]
    omega
  simp only [calculateMACD, hg, if_false, hsig, macdHistogramOk]

/-- Witness for C5 at the minimal configuration `fast = slow = signal = 1`
with a single bar. -/
theorem c5_witness : macdHistogramOk (calculateMACD [1] 1 1 1) :=
  c5_macd_histogram [1] 1 1 1 (by decide) (by decide) (by decide) (by decide)

theorem metricsLoop_fst :
    ∀ (window : List MetricBar) (i : Nat) (h : JNum) (vs : ℚ) (vc : Nat),
      (metricsLoop window i h vs vc).1 =
        (window.map (fun b => b.high.mulQ (splitMultiplier b))).foldl
          (fun acc j => if j.isFinite then acc.jmax j else acc) h := by
  intro window
  induction window with
  | nil => intro i h vs vc; rfl
  | cons bar rest ih =>
    intro i h vs vc
    rw [List.map_cons, List.foldl_cons]
    simp only [metricsLoop]
    by_cases hi : i < VOLUME_AVG_DAYS
    · rw [if_pos hi]
      cases hbv : bar.volume with
      | fin v => rw [ih]
      | nan => rw [ih]
      | inf => rw [ih]
      | ninf => rw [ih]
    · rw [if_neg hi, ih]

theorem jmax_foldl_fin :
    ∀ (l : List JNum) (m : ℚ),
      List.foldl (fun (acc : JNum) (j : JNum) => if j.isFinite then acc.jmax j else acc)
          (JNum.fin m) l =
        JNum.fin ((finiteVals l).foldl max m) := by
  intro l
  induction l with
  | nil => intro m; rfl
  | cons j rest ih =>
    intro m
    cases j with
    | fin q =>
      have hfv : finiteVals (JNum.fin q :: rest) = q :: finiteVals rest := rfl
      have hacc : (if (JNum.fin q).isFinite then (JNum.fin m).jmax (JNum.fin q)
          else JNum.fin m) = JNum.fin (max m q) := rfl
      rw [List.foldl_cons, hacc, hfv, List.foldl_cons]
      exact ih (max m q)
    | nan =>
      have hfv : finiteVals (JNum.nan :: rest) = finiteVals rest := rfl
      have hacc : (if JNum.nan.isFinite then (JNum.fin m).jmax JNum.nan
          else JNum.fin m) = JNum.fin m := rfl
      rw [List.foldl_cons, hacc, hfv]
      exact ih m
    | inf =>
      have hfv : finiteVals (JNum.inf :: rest) = finiteVals rest := rfl
      have hacc : (if JNum.inf.isFinite then (JNum.fin m).jmax JNum.inf
          else JNum.fin m) = JNum.fin m := rfl
      rw [List.foldl_cons, hacc, hfv]
      exact ih m
    | ninf =>
      have hfv : finiteVals (JNum.ninf :: rest) = finiteVals rest := rfl
      have hacc : (if JNum.ninf.isFinite then (JNum.fin m).jmax JNum.ninf
          else JNum.fin m) = JNum.fin m := rfl
      rw [List.foldl_cons, hacc, hfv]
      exact ih m

theorem jmax_foldl_ninf (l : List JNum) :
    List.foldl (fun (acc : JNum) (j : JNum) => if j.isFinite then acc.jmax j else acc)
        JNum.ninf l =
      (match finiteVals l with
       | [] => JNum.ninf
       | q :: rest => JNum.fin (rest.foldl max q)) := by
  induction l with
  | nil => rfl
  | cons j rest ih =>
    cases j with
    | fin q =>
      have hacc : (if (JNum.fin q).isFinite then JNum.ninf.jmax (JNum.fin q)
          else JNum.ninf) = JNum.fin q := rfl
      rw [List.foldl_cons, hacc, jmax_foldl_fin rest q]
      rfl
    | nan =>
      have hacc : (if JNum.nan.isFinite then JNum.ninf.jmax JNum.nan
          else JNum.ninf) = JNum.ninf := rfl
      have hfv : finiteVals (JNum.nan :: rest) = finiteVals rest := rfl
      rw [List.foldl_cons, hacc, hfv]
      exact ih
    | inf =>
      have hacc : (if JNum.inf.isFinite then JNum.ninf.jmax JNum.inf
          else JNum.ninf) = JNum.ninf := rfl
      have hfv : finiteVals (JNum.inf :: rest) = finiteVals rest := rfl
      rw [List.foldl_cons, hacc, hfv]
      exact ih
    | ninf =>
      have hacc : (if JNum.ninf.isFinite then JNum.ninf.jmax JNum.ninf
          else JNum.ninf) = JNum.ninf := rfl
      have hfv : finiteVals (JNum.ninf :: rest) = finiteVals rest := rfl
      rw [List.foldl_cons, hacc, hfv]
      exact ih

theorem metricsLoop_vol :
    ∀ (window : List MetricBar) (i : Nat) (h : JNum) (vs : ℚ) (vc : Nat),
      (metricsLoop window i h vs vc).2.1 =
        vs + (finiteVals ((window.take (VOLUME_AVG_DAYS - i)).map (fun b => b.volume))).sum ∧
      (metricsLoop window i h vs vc).2.2 =
        vc + (finiteVals ((window.take (VOLUME_AVG_DAYS - i)).map (fun b => b.volume))).length := by
  intro window
  induction window with
  | nil => intro i h vs vc; simp [metricsLoop, finiteVals]
  | cons bar rest ih =>
    intro i h vs vc
    simp only [metricsLoop]
    by_cases hi : i < VOLUME_AVG_DAYS
    · rw [if_pos hi]
      have htake : VOLUME_AVG_DAYS - i = (VOLUME_AVG_DAYS - (i + 1)) + 1 := by omega
      rw [htake, List.take_succ_cons, List.map_cons]
      cases hbv : bar.volume with
      | fin v =>
        have hfv : finiteVals (JNum.fin v ::
            (rest.take (VOLUME_AVG_DAYS - (i + 1))).map (fun b => b.volume)) =
            v :: finiteVals ((rest.take (VOLUME_AVG_DAYS - (i + 1))).map (fun b => b.volume)) :=
          rfl
        rw [hfv, List.sum_cons, List.length_cons]
        refine ⟨?_, ?_⟩
        · rw [(ih (i + 1) _ (vs + v) (vc + 1)).1]; ring
        · rw [(ih (i + 1) _ (vs + v) (vc + 1)).2]; omega
      | nan =>
        have hfv : finiteVals (JNum.nan ::
            (rest.take (VOLUME_AVG_DAYS - (i + 1))).map (fun b => b.volume)) =
            finiteVals ((rest.take (VOLUME_AVG_DAYS - (i + 1))).map (fun b => b.volume)) := rfl
        rw [hfv]
        exact ih (i + 1) _ vs vc
      | inf =>
        have hfv : finiteVals (JNum.inf ::
            (rest.take (VOLUME_AVG_DAYS - (i + 1))).map (fun b => b.volume)) =
            finiteVals ((rest.take (VOLUME_AVG_DAYS - (i + 1))).map (fun b => b.volume)) := rfl
        rw [hfv]
        exact ih (i + 1) _ vs vc
      | ninf =>
        have hfv : finiteVals (JNum.ninf ::
            (rest.take (VOLUME_AVG_DAYS - (i + 1))).map (fun b => b.volume)) =
            finiteVals ((rest.take (VOLUME_AVG_DAYS - (i + 1))).map (fun b => b.volume)) := rfl
        rw [hfv]
        exact ih (i + 1) _ vs vc
    · rw [if_neg hi]
      have h0 : VOLUME_AVG_DAYS - i = 0 := by omega
      have h1 : VOLUME_AVG_DAYS - (i + 1) = 0 := by omega
      rw [h0]
      simp only [List.take_zero, List.map_nil]
      refine ⟨?_, ?_⟩
      · rw [(ih (i + 1) _ vs vc).1, h1]
        simp [finiteVals]
      · rw [(ih (i + 1) _ vs vc).2, h1]
        simp [finiteVals]

/-- C4: `computeMetrics` returns exactly the spec's description — `high52Week`
is the maximum finite split-adjusted high over the first 270 bars (multiplier 1
when `close` is 0 or `close`/`adjustedClose` is non-finite), `avgVolume30Day`
is the arithmetic mean of the finite volumes among the first 30 bars, and each
metric is `NaN` (no exception) when no finite contributing value exists. -/
theorem c4_computeMetrics_spec (bars : List MetricBar) :
    computeMetrics bars =
      { high52Week := specHigh52Week bars, avgVolume30Day := specAvgVolume30Day bars } := by
  simp only [computeMetrics, Metrics.mk.injEq]
  constructor
  · rw [metricsLoop_fst, jmax_foldl_ninf]
    have hadj : (bars.take TRADING_DAYS_WINDOW).map (fun b => b.high.mulQ (splitMultiplier b)) =
        specAdjHighs bars := rfl
    rw [hadj]
    unfold specHigh52Week
    cases hfv : finiteVals (specAdjHighs bars) with
    | nil => rfl
    | cons q rest => rfl
  · rw [(metricsLoop_vol (bars.take TRADING_DAYS_WINDOW) 0 .ninf 0 0).1,
      (metricsLoop_vol (bars.take TRADING_DAYS_WINDOW) 0 .ninf 0 0).2]
    have htt : (bars.take TRADING_DAYS_WINDOW).take (VOLUME_AVG_DAYS - 0) =
        bars.take VOLUME_AVG_DAYS := by
      rw [Nat.sub_zero, List.take_take]
      norm_num [VOLUME_AVG_DAYS, TRADING_DAYS_WINDOW]
    rw [htt]
    unfold specAvgVolume30Day
    by_cases hb : (finiteVals ((bars.take VOLUME_AVG_DAYS).map (fun b => b.volume))).length = 0
    · rw [if_pos hb]
      have : ¬(0 < 0 + (finiteVals ((bars.take VOLUME_AVG_DAYS).map (fun b => b.volume))).length) := by
        omega
      rw [if_neg this]
    · rw [if_neg hb]
      have hpos : 0 < 0 + (finiteVals ((bars.take VOLUME_AVG_DAYS).map (fun b => b.volume))).length := by
        omega
      rw [if_pos hpos]
      simp

theorem orElse_some_absorb {β : Type} (X : Option β) (e : β) (f : Unit → Option β) :
    (X.orElse (fun _ => some e)).orElse f = X.orElse (fun _ => some e) := by
  cases X <;> rfl

theorem orElse_none_right {β : Type} (X : Option β) :
    X.orElse (fun _ => (none : Option β)) = X := by
  cases X <;> rfl

theorem fetchAttempts_all_fail {α : Type} (t : Nat → FetchOutcome α) :
    ∀ (len start : Nat) (acc : Option FetchErr),
      (∀ i, start ≤ i → i < start + len → attemptFails (t i)) →
      fetchAttempts t start len acc =
        .error (((lastRejectIn t start len).orElse (fun _ => acc)).getD .exhausted) := by
  intro len
  induction len with
  | zero =>
    intro start acc _
    have h1 : lastRejectIn t start 0 = none := rfl
    rw [h1]
    rfl
  | succ len ih =>
    intro start acc hfail
    have hstart : attemptFails (t start) := hfail start (le_refl start) (by omega)
    have hrange : ∀ i, start + 1 ≤ i → i < start + 1 + len → attemptFails (t i) :=
      fun i h1 h2 => hfail i (by omega) (by omega)
    cases ht : t start with
    | reject e =>
      have hstep : fetchAttempts t start (len + 1) acc = fetchAttempts t (start + 1) len (some e) := by
        simp only [fetchAttempts, ht]
      have hlast : lastRejectIn t start (len + 1) =
          (lastRejectIn t (start + 1) len).orElse (fun _ => some e) := by
        show (lastRejectIn t (start + 1) len).orElse (fun _ => attemptErr (t start)) = _
        rw [ht]
        rfl
      rw [hstep, ih (start + 1) (some e) hrange, hlast, orElse_some_absorb]
    | resp status text parsed =>
      have hstart' : retryableStatus status = true ∨ ∃ a, parsed = some (true, a) := by
        rw [ht] at hstart
        exact hstart
      have hlast : lastRejectIn t start (len + 1) = lastRejectIn t (start + 1) len := by
        show (lastRejectIn t (start + 1) len).orElse (fun _ => attemptErr (t start)) = _
        rw [ht]
        exact orElse_none_right _
      by_cases hr : retryableStatus status = true
      · have hstep : fetchAttempts t start (len + 1) acc = fetchAttempts t (start + 1) len acc := by
          simp only [fetchAttempts, ht, hr, if_true]
        rw [hstep, ih (start + 1) acc hrange, hlast]
      · obtain ⟨a, hp⟩ := hstart'.resolve_left hr
        have hstep : fetchAttempts t start (len + 1) acc = fetchAttempts t (start + 1) len acc := by
          simp only [fetchAttempts, ht, hp, hr, Bool.false_eq_true, if_false, if_true]
        rw [hstep, ih (start + 1) acc hrange, hlast]

/-- Counterexample for C3: with `maxRetries = 0` and a transport whose single
attempt fails with HTTP 429 (a failure that records no error object), the
function raises the fresh generic exhaustion error — not "the most recent
underlying error it encountered" nor "the last failure's error", since the run
encountered no underlying error at all. -/
theorem c3_counterexample :
    fetchJsonWithBackoff (fun _ => FetchOutcome.resp 429 "" (none : Option (Bool × Nat))) 0 =
      .error .exhausted ∧
    retryableStatus 429 = true ∧
    attemptErr ((fun _ => FetchOutcome.resp 429 "" (none : Option (Bool × Nat))) 0) = none := by
  refine ⟨rfl, rfl, rfl⟩

/-- C3 (amended): when every attempt fails (network error, HTTP 429/5xx, or a
soft rate-limit body), after `maxRetries + 1` attempts the function raises the
most recent error *thrown* by an attempt — a network rejection; 429/5xx and
soft-limit failures do not record an error — and raises the generic
`failed after retries` error when no attempt threw. -/
theorem c3_exhaustion_raises_last_thrown {α : Type} (t : Nat → FetchOutcome α)
    (maxRetries : Nat) (h : ∀ i, i ≤ maxRetries → attemptFails (t i)) :
    fetchJsonWithBackoff t maxRetries =
      .error ((lastRejectIn t 0 (maxRetries + 1)).getD .exhausted) := by
  unfold fetchJsonWithBackoff
  rw [fetchAttempts_all_fail t (maxRetries + 1) 0 none (fun i _ h2 => h i (by omega))]
  cases hX : lastRejectIn t 0 (maxRetries + 1) <;> rfl

/-- Witness for C3 (amended): attempt 0 rejects with a network error and
attempt 1 fails with HTTP 429; exhaustion raises the recorded network error. -/
theorem c3_witness :
    fetchJsonWithBackoff
      (fun i => if i = 0 then FetchOutcome.reject (.net 7)
                else FetchOutcome.resp 429 "" (none : Option (Bool × Nat))) 1 =
      .error (.net 7) := by
  have h := c3_exhaustion_raises_last_thrown
    (fun i => if i = 0 then FetchOutcome.reject (.net 7)
              else FetchOutcome.resp 429 "" (none : Option (Bool × Nat))) 1 ?_
  · rw [h]
    rfl
  · intro i hi
    interval_cases i
    · exact trivial
    · exact Or.inl rfl

theorem mem_getById {ν : Type} (reg : ProviderRegistry ν) (pid : String) (p : Provider ν)
    (hp : p ∈ (reg.getById pid).toList) : p ∈ reg.providers := by
  unfold ProviderRegistry.getById at hp
  cases hf : reg.providers.find? (fun q => q.id == pid) with
  | none => rw [hf] at hp; simp at hp
  | some q =>
    rw [hf] at hp
    simp at hp
    exact hp ▸ List.mem_of_find?_eq_some hf

theorem foldl_dedup_mem {ν : Type} :
    ∀ (l acc : List (Provider ν)) (x : Provider ν),
      x ∈ l.foldl (fun order p =>
          if order.any (fun q => q.id == p.id) then order else order ++ [p]) acc →
      x ∈ acc ∨ x ∈ l := by
  intro l
  induction l with
  | nil => intro acc x hx; exact Or.inl hx
  | cons p rest ih =>
    intro acc x hx
    rw [List.foldl_cons] at hx
    rcases ih _ x hx with hacc | hrest
    · by_cases hc : acc.any (fun q => q.id == p.id)
      · rw [if_pos hc] at hacc
        exact Or.inl hacc
      · rw [if_neg hc] at hacc
        rcases List.mem_append.mp hacc with h1 | h2
        · exact Or.inl h1
        · simp at h2
          exact Or.inr (by simp [h2])
    · exact Or.inr (List.mem_cons_of_mem p hrest)

theorem getProviderOrder_mem {ν : Type} (reg : ProviderRegistry ν) (pref : Option String)
    (p : Provider ν) (hp : p ∈ reg.getProviderOrder pref) : p ∈ reg.providers := by
  simp only [ProviderRegistry.getProviderOrder] at hp
  rcases foldl_dedup_mem _ _ p hp with hbase | hl
  · rcases List.mem_append.mp hbase with h12 | h3
    · rcases List.mem_append.mp h12 with h1 | h2
      · cases pref with
        | none => simp at h1
        | some pid => exact mem_getById reg pid p h1
      · cases hd : reg.defaultProviderId with
        | none => rw [hd] at h2; simp at h2
        | some did =>
          rw [hd] at h2
          dsimp only at h2
          by_cases hne : pref ≠ some did
          · rw [if_pos hne] at h2
            exact mem_getById reg did p h2
          · rw [if_neg hne] at h2
            simp at h2
    · cases hfb : reg.fallbackProviderId with
      | none => rw [hfb] at h3; simp at h3
      | some fid =>
        rw [hfb] at h3
        dsimp only at h3
        by_cases hne : pref ≠ some fid ∧ reg.defaultProviderId ≠ some fid
        · rw [if_pos hne] at h3
          exact mem_getById reg fid p h3
        · rw [if_neg hne] at h3
          simp at h3
  · exact hl

theorem newsLoop_total_failure {ν : Type} (symbol : String) (limit : Option Nat) :
    ∀ provs : List (Provider ν),
      (∀ p ∈ provs, p.isAvailable = false ∨
        ∀ f, p.fetchNewsFn = some f → ∀ s l, ∃ e, f s l = .error e) →
      newsLoop symbol limit provs = [] := by
  intro provs
  induction provs with
  | nil => intro _; rfl
  | cons p rest ih =>
    intro h
    have hrest : ∀ q ∈ rest, q.isAvailable = false ∨
        ∀ f, q.fetchNewsFn = some f → ∀ s l, ∃ e, f s l = .error e :=
      fun q hq => h q (List.mem_cons_of_mem p hq)
    have hp := h p (List.mem_cons_self p rest)
    cases hav : p.isAvailable with
    | false =>
      simp only [newsLoop, hav, Bool.false_eq_true, if_false]
      exact ih hrest
    | true =>
      rcases hp with hav' | hraise
      · rw [hav] at hav'
        exact absurd hav' (by simp)
      · cases hf : p.fetchNewsFn with
        | none =>
          simp only [newsLoop, hav, if_true, hf]
          exact ih hrest
        | some f =>
          obtain ⟨e, he⟩ := hraise f hf symbol limit
          simp only [newsLoop, hav, if_true, hf, he]
          exact ih hrest

theorem topNewsLoop_total_failure {ν : Type} (limit : Option Nat) :
    ∀ provs : List (Provider ν),
      (∀ p ∈ provs, p.isAvailable = false ∨
        ∀ f, p.fetchTopNewsFn = some f → ∀ l, ∃ e, f l = .error e) →
      topNewsLoop limit provs = [] := by
  intro provs
  induction provs with
  | nil => intro _; rfl
  | cons p rest ih =>
    intro h
    have hrest : ∀ q ∈ rest, q.isAvailable = false ∨
        ∀ f, q.fetchTopNewsFn = some f → ∀ l, ∃ e, f l = .error e :=
      fun q hq => h q (List.mem_cons_of_mem p hq)
    have hp := h p (List.mem_cons_self p rest)
    cases hav : p.isAvailable with
    | false =>
      simp only [topNewsLoop, hav, Bool.false_eq_true, if_false]
      exact ih hrest
    | true =>
      rcases hp with hav' | hraise
      · rw [hav] at hav'
        exact absurd hav' (by simp)
      · cases hf : p.fetchTopNewsFn with
        | none =>
          simp only [topNewsLoop, hav, if_true, hf]
          exact ih hrest
        | some f =>
          obtain ⟨e, he⟩ := hraise f hf limit
          simp only [topNewsLoop, hav, if_true, hf, he]
          exact ih hrest

/-- C8: if every registered provider either reports `isAvailable()` false or
raises whenever its `fetchNews` (respectively `fetchTopNews`) is invoked, the
registry's `fetchNews` (respectively `fetchTopNews`) returns the empty list
— and, being total by construction, never raises — for every symbol, limit
and preferred id. -/
theorem c8_registry_news_total_failure {ν : Type} (reg : ProviderRegistry ν)
    (symbol : String) (limit : Option Nat) (preferredId : Option String)
    (hN : ∀ p ∈ reg.providers, p.isAvailable = false ∨
      ∀ f, p.fetchNewsFn = some f → ∀ s l, ∃ e, f s l = .error e)
    (hT : ∀ p ∈ reg.providers, p.isAvailable = false ∨
      ∀ f, p.fetchTopNewsFn = some f → ∀ l, ∃ e, f l = .error e) :
    reg.fetchNews symbol limit preferredId = [] ∧
    reg.fetchTopNews limit preferredId = [] := by
  constructor
  · unfold ProviderRegistry.fetchNews
    apply newsLoop_total_failure
    intro p hp
    exact hN p (getProviderOrder_mem reg preferredId p (List.mem_of_mem_filter hp))
  · unfold ProviderRegistry.fetchTopNews
    apply topNewsLoop_total_failure
    intro p hp
    exact hT p (getProviderOrder_mem reg preferredId p (List.mem_of_mem_filter hp))

/-- Witness for C8: a registry with one available provider whose news
operations always raise returns `[]` for both operations. -/
theorem c8_witness :
    failingRegistry.fetchNews "AAPL" none none = [] ∧
    failingRegistry.fetchTopNews none none = [] := by
  apply c8_registry_news_total_failure
  · intro p hp
    simp only [failingRegistry, List.mem_singleton] at hp
    subst hp
    right
    intro f hf s l
    simp only [failingNewsProvider] at hf
    injection hf with hg
    subst hg
    exact ⟨"down", rfl⟩
  · intro p hp
    simp only [failingRegistry, List.mem_singleton] at hp
    subst hp
    right
    intro f hf l
    simp only [failingNewsProvider] at hf
    injection hf with hg
    subst hg
    exact ⟨"down", rfl⟩

/-- Counterexample for C9: a Finnhub payload with `c = 10`, `d = 1`, `dp = 5`,
`pc = 4` yields a successful quote whose `changePercent = 0.05` differs from
`change / previousClose = 0.25`; Finnhub's adapter copies the upstream `dp`
field instead of recomputing the ratio. -/
theorem c9_counterexample :
    finnhubFetchQuote "X" (some finnhubBadRaw) = .ok finnhubBadQuote ∧
    ¬ quoteInvariant finnhubBadQuote := by
  constructor
  · simp only [finnhubFetchQuote, finnhubBadRaw, finnhubBadQuote]
    norm_num [Quote.mk.injEq]
  · intro hinv
    unfold quoteInvariant finnhubBadQuote at hinv
    norm_num at hinv

/-- C9 (amended): the Alpha Vantage adapter establishes the invariant
`changePercent = change / previousClose` (whenever `previousClose ≠ 0`) by
construction, deriving `previousClose = price - change` when the upstream
field is absent; the Finnhub adapter reports `changePercent = dp / 100`
straight from upstream, so its quotes satisfy the invariant only when the
upstream response is self-consistent (`dp / 100 = d / pc`). -/
theorem c9_quote_normalization :
    (∀ (symbol : String) (resp : Option AVGlobalQuote) (q : Quote),
      avFetchQuote symbol resp = .ok q → quoteInvariant q) ∧
    (∀ (symbol : String) (r : AVGlobalQuote) (q : Quote),
      r.previousCloseField = none → avFetchQuote symbol (some r) = .ok q →
      q.previousClose = q.price - q.change) ∧
    (∀ (symbol : String) (r : FinnhubQuote) (q : Quote),
      finnhubFetchQuote symbol (some r) = .ok q →
      r.dp / 100 = r.d / r.pc → quoteInvariant q) := by
  refine ⟨?_, ?_, ?_⟩
  · intro symbol resp q h
    cases resp with
    | none => simp [avFetchQuote] at h
    | some r =>
      cases hp : r.priceField with
      | none => simp [avFetchQuote, hp] at h
      | some price =>
        simp only [avFetchQuote, hp] at h
        injection h with hq
        subst hq
        intro hne
        dsimp only at hne ⊢
        rw [if_pos hne]
  · intro symbol r q hprev h
    cases hp : r.priceField with
    | none => simp [avFetchQuote, hp] at h
    | some price =>
      simp only [avFetchQuote, hp, hprev] at h
      injection h with hq
      subst hq
      rfl
  · intro symbol r q h hcons
    simp only [finnhubFetchQuote] at h
    by_cases hc : r.c = 0
    · rw [if_pos hc] at h
      exact absurd h (by simp)
    · rw [if_neg hc] at h
      injection h with hq
      subst hq
      intro hne
      dsimp only at hne ⊢
      exact hcons

/-- Witness for C9 (amended): an Alpha Vantage response with the previous
close absent derives `previousClose = 10 - 1 = 9` and reports
`changePercent = 1/9`, satisfying the invariant. -/
theorem c9_witness : quoteInvariant avDerivedQuote := by
  apply c9_quote_normalization.1 "A" (some avRawNoPrev)
  simp only [avFetchQuote, avRawNoPrev, avDerivedQuote]
  norm_num [Quote.mk.injEq]

end FQ
